import Mathlib

/-!
Shallow embedding of the cod5-watermark-worker video pipeline
(src/app/core/{config,processor,status,queue,utils}.py) and proofs about it.

Conventions:
* Python floats are idealised as exact rationals; machine ints as ℤ/ℕ.
* Effects (storage, subprocesses, the detector, HTTP) are supplied by an
  explicit environment `RunEnv`; each fallible call is an outcome field.
* `status_manager.update(...)` calls are recorded as a trace of `UpdateCall`
  values; folding the trace over an initial record gives the stored snapshot.
-/

namespace Cod5

/-! ## Configuration (src/app/core/config.py) -/

/-- `Settings` defaults, as declared in `config.py`. Only the fields the
pipeline and queue read are modelled. -/
structure Settings where
  YOLO_CONF : ℚ := 55/100
  YOLO_IOU : ℚ := 45/100
  YOLO_MAX_DET : ℤ := 10
  INPAINT_BLEND_ALPHA : ℚ := 75/100
  MASK_EXPAND : ℤ := 4
  FRAME_STRIDE : ℤ := 1
  QUEUE_BACKEND : Option String := none
  CELERY_CONCURRENCY : ℤ := 2
deriving DecidableEq, Repr

/-- Python truthiness applied by `value or default` for an optional float:
`None` and `0.0` are falsy and fall back to the default. -/
def pyOrQ (value : Option ℚ) (d : ℚ) : ℚ :=
  match value with
  | none => d
  | some x => if x = 0 then d else x

/-- Python truthiness applied by `value or default` for an optional int. -/
def pyOrZ (value : Option ℤ) (d : ℤ) : ℤ :=
  match value with
  | none => d
  | some x => if x = 0 then d else x

/-- `Settings.validate_yolo_conf`: `max(0.05, min(0.8, value or YOLO_CONF))`. -/
def Settings.validate_yolo_conf (s : Settings) (value : Option ℚ) : ℚ :=
  max (5/100) (min (8/10) (pyOrQ value s.YOLO_CONF))

/-- `Settings.validate_yolo_iou`: `max(0.1, min(0.9, value or YOLO_IOU))`. -/
def Settings.validate_yolo_iou (s : Settings) (value : Option ℚ) : ℚ :=
  max (1/10) (min (9/10) (pyOrQ value s.YOLO_IOU))

/-- `Settings.validate_max_det`: `max(1, min(50, value or YOLO_MAX_DET))`. -/
def Settings.validate_max_det (s : Settings) (value : Option ℤ) : ℤ :=
  max 1 (min 50 (pyOrZ value s.YOLO_MAX_DET))

/-- `Settings.validate_blend_alpha`: `max(0.0, min(1.0, value or INPAINT_BLEND_ALPHA))`. -/
def Settings.validate_blend_alpha (s : Settings) (value : Option ℚ) : ℚ :=
  max 0 (min 1 (pyOrQ value s.INPAINT_BLEND_ALPHA))

/-- `Settings.is_redis_enabled`: `QUEUE_BACKEND is not None and
QUEUE_BACKEND.startswith("redis://")`. -/
def Settings.is_redis_enabled (s : Settings) : Bool :=
  match s.QUEUE_BACKEND with
  | none => false
  | some b => "redis://".toList.isPrefixOf b.toList

/-- `process_video` line 307-310: `override_mask_expand if not None else
MASK_EXPAND`, then `max(0, int(mask_expand))` (the intermediate is never
`None`, so the final else-branch is dead). -/
def resolve_mask_expand (s : Settings) (value : Option ℤ) : ℤ :=
  let me := match value with
    | some x => x
    | none => s.MASK_EXPAND
  max 0 me

/-- `process_video` line 312-313: `max(1, int(override)) if override is not
None else FRAME_STRIDE` — the configured default is used unclamped. -/
def resolve_frame_stride (s : Settings) (value : Option ℤ) : ℤ :=
  match value with
  | some x => max 1 x
  | none => s.FRAME_STRIDE

/-! ## Mask construction (src/app/core/processor.py: expand_mask) -/

/-- A detector bounding box `(x1, y1, x2, y2)` in pixel coordinates. -/
structure Box where
  x1 : ℤ
  y1 : ℤ
  x2 : ℤ
  y2 : ℤ
deriving DecidableEq, Repr

/-- The per-box body of `expand_mask`: expand by `e` on each side and clamp
to the `h × w` frame: `x1 = max(0, x1-e)`, `x2 = min(w, x2+e)`, same for y. -/
def clampBox (b : Box) (e h w : ℤ) : Box :=
  { x1 := max 0 (b.x1 - e)
    y1 := max 0 (b.y1 - e)
    x2 := min w (b.x2 + e)
    y2 := min h (b.y2 + e) }

/-- Membership of pixel `(y, x)` in the half-open region `mask[y1:y2, x1:x2]`. -/
def inBox (b : Box) (y x : ℤ) : Prop :=
  b.y1 ≤ y ∧ y < b.y2 ∧ b.x1 ≤ x ∧ x < b.x2

instance (b : Box) (y x : ℤ) : Decidable (inBox b y x) := by
  unfold inBox; infer_instance

/-- `mask[y1:y2, x1:x2] = 255` applied to a mask given as a pixel function. -/
def fillBox (m : ℤ → ℤ → ℕ) (b : Box) : ℤ → ℤ → ℕ :=
  fun y x => if inBox b y x then 255 else m y x

/-- `expand_mask(boxes, expand_px, frame_shape)`: start from `np.zeros((h,w))`
and paint each expanded, clamped box with 255. -/
def expand_mask (boxes : List Box) (expand_px h w : ℤ) : ℤ → ℤ → ℕ :=
  boxes.foldl (fun m b => fillBox m (clampBox b expand_px h w)) (fun _ _ => 0)

/-! ## Task status records (src/app/core/status.py) -/

/-- The effective parameter set written by `process_video` as
`params_effective`. -/
structure ParamsEffective where
  yolo_conf : ℚ
  yolo_iou : ℚ
  mask_expand : ℤ
  frame_stride : ℤ
  torch_device : String
deriving DecidableEq, Repr

/-- One `status_manager.update(task_id, ...)` call: a partial record; `none`
means the keyword was not passed. -/
structure UpdateCall where
  status : Option String := none
  stage : Option String := none
  progress : Option ℤ := none
  frames_total : Option ℤ := none
  frames_done : Option ℤ := none
  spaces_output : Option String := none
  error_detail : Option String := none
  message : Option String := none
  log_excerpt : Option String := none
  params_effective : Option ParamsEffective := none
  model_used : Option String := none
deriving DecidableEq, Repr

/-- The `TaskStatus` record (the fields the modelled code reads or writes).
`updated_at` is the wall-clock stamp `TaskStatus.update` refreshes; the
clock itself is not modelled, so updates leave the field as supplied. -/
structure TaskStatus where
  task_id : String
  status : String := "queued"
  progress : ℤ := 0
  stage : String := "uploading"
  updated_at : String := ""
  frames_total : Option ℤ := none
  frames_done : Option ℤ := none
  spaces_output : Option String := none
  log_excerpt : String := ""
  message : String := ""
  params_effective : Option ParamsEffective := none
  model_used : Option String := none
  error_detail : Option String := none
  webhook_status : Option ℤ := none
  webhook_error : Option String := none
deriving DecidableEq, Repr

/-- Merge one partial update over a record (`TaskStatus.update` setattr loop:
only the supplied keywords change). -/
def TaskStatus.applyUpdate (t : TaskStatus) (u : UpdateCall) : TaskStatus :=
  { t with
    status := u.status.getD t.status
    stage := u.stage.getD t.stage
    progress := u.progress.getD t.progress
    frames_total := match u.frames_total with | some v => some v | none => t.frames_total
    frames_done := match u.frames_done with | some v => some v | none => t.frames_done
    spaces_output := match u.spaces_output with | some v => some v | none => t.spaces_output
    error_detail := match u.error_detail with | some v => some v | none => t.error_detail
    message := u.message.getD t.message
    log_excerpt := u.log_excerpt.getD t.log_excerpt
    params_effective :=
      match u.params_effective with | some v => some v | none => t.params_effective
    model_used := match u.model_used with | some v => some v | none => t.model_used }

/-- Fold a whole trace of updates over a record. -/
def TaskStatus.applyUpdates (t : TaskStatus) (us : List UpdateCall) : TaskStatus :=
  us.foldl TaskStatus.applyUpdate t

/-! ## Webhook URL validation (src/app/core/processor.py lines 523-548, 574-592) -/

/-- Python `str.strip()`: drop leading and trailing whitespace. -/
def pyStrip (s : String) : String :=
  String.mk (((s.toList.dropWhile Char.isWhitespace).reverse.dropWhile
    Char.isWhitespace).reverse)

/-- Python `str.lower()`. -/
def pyLower (s : String) : String :=
  String.mk (s.toList.map Char.toLower)

/-- Characters `urlparse` accepts inside a scheme after the leading letter. -/
def schemeChar (c : Char) : Bool :=
  c.isAlphanum || c = '+' || c = '-' || c = '.'

/-- Split a character list at its first colon, returning the parts before and
after it (the colon itself dropped). -/
def splitAtColon : List Char → Option (List Char × List Char)
  | [] => none
  | c :: cs =>
    if c = ':' then some ([], cs)
    else
      match splitAtColon cs with
      | some (p, r) => some (c :: p, r)
      | none => none

/-- `urlparse(url).scheme`: the text before the first colon, lowercased, when
it is nonempty, starts with a letter and uses only scheme characters;
otherwise the empty string. -/
def urlScheme (url : String) : String :=
  match splitAtColon url.toList with
  | some (p, _) =>
    if p ≠ [] ∧ (∀ c ∈ p.take 1, c.isAlpha) ∧ (∀ c ∈ p, schemeChar c) then
      String.mk (p.map Char.toLower)
    else ""
  | none => ""

/-- The remainder of the url once a valid scheme prefix has been removed. -/
def urlAfterScheme (url : String) : List Char :=
  match splitAtColon url.toList with
  | some (p, r) =>
    if p ≠ [] ∧ (∀ c ∈ p.take 1, c.isAlpha) ∧ (∀ c ∈ p, schemeChar c) then r
    else url.toList
  | none => url.toList

/-- `urlparse(url).netloc`: when the post-scheme remainder starts with `//`,
everything up to the next `/`, `?` or `#`; otherwise the empty string. -/
def urlNetloc (url : String) : String :=
  match urlAfterScheme url with
  | '/' :: '/' :: rest =>
    String.mk (rest.takeWhile (fun c => c ≠ '/' ∧ c ≠ '?' ∧ c ≠ '#'))
  | _ => ""

/-- The guard both webhook sites apply before posting: the url must be
present (truthy), have a nonblank strip, differ from the placeholder
`"string"` case-insensitively, and parse with a nonempty scheme and netloc. -/
def validWebhookUrl (url : Option String) : Bool :=
  match url with
  | none => false
  | some s =>
    s ≠ "" && pyStrip s ≠ "" && pyLower s ≠ "string" &&
      urlScheme (pyStrip s) ≠ "" && urlNetloc (pyStrip s) ≠ ""

/-- One webhook delivery: `requests.post(url, json=snapshot, timeout=10)`. -/
structure WebhookPost where
  body : TaskStatus
  timeout_s : ℕ
deriving DecidableEq, Repr

/-! ## The pipeline (src/app/core/processor.py: process_video) -/

/-- Caller-supplied parameters reaching `process_video` (`params` dict). -/
structure Params where
  override_conf : Option ℚ := none
  override_mask_expand : Option ℤ := none
  override_frame_stride : Option ℤ := none
  webhook_url : Option String := none
deriving DecidableEq, Repr

/-- One extracted frame file as the run sees it: whether `cv2.imread`
succeeds on it during the inpaint loop, and what the detector returns for it
when it is sampled. -/
structure FrameData where
  img : Bool := true
  boxes : List Box := []
deriving DecidableEq, Repr

/-- Outcome of one fallible external call. -/
inductive StageOutcome where
  | ok
  | fail (msg : String)
deriving DecidableEq, Repr

/-- Outcome of the frame-extraction subprocess: success, a nonzero media-tool
exit with the given stderr text, or some other exception. -/
inductive ExtractOutcome where
  | ok
  | toolFail (stderr : String)
  | otherFail (msg : String)
deriving DecidableEq, Repr

/-- The environment of one run: outcomes of every external call, the
extracted frames, and the first frame shape used for the mask. -/
structure RunEnv where
  download : StageOutcome := .ok
  probe : StageOutcome := .ok
  extract : ExtractOutcome := .ok
  frames : List FrameData := []
  frameH : ℤ := 0
  frameW : ℤ := 0
  detectPhase : StageOutcome := .ok
  render : StageOutcome := .ok
  upload : StageOutcome := .ok
  uploadUrl : String := ""
  deviceEffective : String := "cpu"
  webhookOutcome : Except String ℤ := .ok 200
deriving Repr

/-- `extract_frames` error wrapping (lines 209-214): a nonzero media-tool
exit is re-raised as `RuntimeError` whose message appends the decoded stderr
to a fixed text; any other exception propagates unchanged. -/
def extract_frames_result (o : ExtractOutcome) : Except String Unit :=
  match o with
  | .ok => .ok ()
  | .toolFail stderr => .error ("Falha ao extrair frames do vídeo: " ++ stderr)
  | .otherFail m => .error m

/-- The detection sample (lines 388-392): always index 0, plus `n // 2` when
more than one frame, plus `n - 1` when more than two. -/
def sample_indices (n : ℕ) : List ℕ :=
  [0] ++ (if n > 1 then [n / 2] else []) ++ (if n > 2 then [n - 1] else [])

/-- The candidate set (lines 396-400): `all_boxes.extend(boxes)` over the
sampled frames, in sample order. -/
def all_boxes (frames : List FrameData) : List Box :=
  (sample_indices frames.length).foldl
    (fun acc idx => acc ++ (frames.getD idx {}).boxes) []

/-- The mask shared by the whole run (lines 416-423): the expanded union of
all candidate boxes, or `np.zeros` when no box was detected. -/
def run_mask (env : RunEnv) (mask_expand : ℤ) : ℤ → ℤ → ℕ :=
  if all_boxes env.frames ≠ [] then
    expand_mask (all_boxes env.frames) mask_expand env.frameH env.frameW
  else fun _ _ => 0

/-- The progress/frames_done update flushed inside the inpaint loop for the
`m`-th processed index (code: `idx + 1 = m`), out of `n` frames. The float
expression `20 + int((idx+1)/n * 60)` is idealised as exact arithmetic. -/
def loopUpdate (n m : ℕ) : UpdateCall :=
  { frames_done := some (m : ℤ)
    progress := some (20 + (60 * (m : ℤ)) / (n : ℤ))
    log_excerpt := some ("Frame " ++ toString m ++ "/" ++ toString n ++ " processado...") }

/-- The inpaint loop (lines 436-458) over the frames from index `j` on, with
`n` frames in total: an unreadable frame is skipped via `continue`; a
processed frame writes output index `idx + 1`, and a status update is
flushed when `idx + 1` is a multiple of 10 or the final index.
Returns the update sub-trace and the 1-based output indices written. -/
def inpaintGo (n : ℕ) : ℕ → List FrameData → List UpdateCall × List ℕ
  | _, [] => ([], [])
  | j, f :: rest =>
    let tail := inpaintGo n (j + 1) rest
    if f.img then
      let tr := if (j + 1) % 10 = 0 ∨ j + 1 = n then loopUpdate n (j + 1) :: tail.1 else tail.1
      (tr, (j + 1) :: tail.2)
    else tail

/-- Update call at line 294: entering the run. -/
def u_downloading : UpdateCall :=
  { status := some "processing", stage := some "downloading", progress := some 5
    log_excerpt := some "Baixando vídeo do Spaces..." }

/-- Update call at line 322: effective parameters and model tag. -/
def u_params (pe : ParamsEffective) : UpdateCall :=
  { params_effective := some pe, model_used := some "YOLOv11s + LAMA-big" }

/-- Update call at line 344: extraction begins. -/
def u_extracting : UpdateCall :=
  { stage := some "extracting", progress := some 10
    log_excerpt := some "Extraindo frames do vídeo..." }

/-- Update call at line 370: extraction done, detection begins. The log text
is omitted (it contains a quote character). -/
def u_detecting (total : ℤ) : UpdateCall :=
  { frames_total := some total, frames_done := some 0
    stage := some "detecting", progress := some 15 }

/-- Update call at line 426: inpainting begins. -/
def u_inpainting : UpdateCall :=
  { stage := some "inpainting", progress := some 20
    log_excerpt := some "Aplicando inpainting nos frames..." }

/-- Update call at line 464: rendering begins. -/
def u_rendering : UpdateCall :=
  { stage := some "rendering", progress := some 85
    log_excerpt := some "Renderizando vídeo final..." }

/-- Update call at line 485: uploading the output. -/
def u_uploading : UpdateCall :=
  { stage := some "uploading_output", progress := some 90
    log_excerpt := some "Enviando vídeo processado para Spaces..." }

/-- Update call at line 506: the terminal success write. -/
def u_completed (output_url : String) : UpdateCall :=
  { status := some "completed", stage := some "finalizing", progress := some 100
    spaces_output := some output_url
    message := some "Watermark removed successfully"
    log_excerpt := some "Processamento concluído!" }

/-- The `except` block write at line 564. -/
def errUpdate (m : String) : UpdateCall :=
  { status := some "error", progress := some 0, error_detail := some m
    message := some ("Erro no processamento: " ++ m)
    log_excerpt := some ("Erro: " ++ m) }

/-- Effective parameters as resolved at lines 303-314. The iou validator is
called with no override. -/
def resolveEffective (s : Settings) (env : RunEnv) (p : Params) : ParamsEffective :=
  { yolo_conf := s.validate_yolo_conf p.override_conf
    yolo_iou := s.validate_yolo_iou none
    mask_expand := resolve_mask_expand s p.override_mask_expand
    frame_stride := resolve_frame_stride s p.override_frame_stride
    torch_device := env.deviceEffective }

/-- The body of the `try` block of `process_video`: the update trace written
so far, paired with either the output url or the message of the exception
that aborted the run. -/
def runBody (s : Settings) (env : RunEnv) (p : Params) : List UpdateCall × Except String String :=
  let pe := resolveEffective s env p
  let tr0 := [u_downloading, u_params pe]
  match env.download with
  | .fail m => (tr0, .error m)
  | .ok =>
    let tr1 := tr0 ++ [u_extracting]
    match env.probe with
    | .fail m => (tr1, .error m)
    | .ok =>
      match extract_frames_result env.extract with
      | .error m => (tr1, .error m)
      | .ok _ =>
        let n := env.frames.length
        let tr2 := tr1 ++ [u_detecting (n : ℤ)]
        match env.frames with
        | [] =>
          -- the sample loop reads frame_files[0]
          (tr2, .error "list index out of range")
        | _ :: _ =>
          match env.detectPhase with
          | .fail m => (tr2, .error m)
          | .ok =>
            let tr3 := tr2 ++ [u_inpainting] ++ (inpaintGo n 0 env.frames).1 ++ [u_rendering]
            match env.render with
            | .fail m => (tr3, .error m)
            | .ok =>
              let tr4 := tr3 ++ [u_uploading]
              match env.upload with
              | .fail m => (tr4, .error m)
              | .ok => (tr4 ++ [u_completed env.uploadUrl], .ok env.uploadUrl)

/-- What one `process_video` run leaves behind: the full update trace, the
re-raised exception message (if any), the returned output url (if any), and
the webhook POSTs issued. -/
structure RunOutput where
  trace : List UpdateCall
  raised : Option String
  result_url : Option String
  posts : List WebhookPost
deriving DecidableEq, Repr

/-- `process_video(task_id, spaces_key, params)`: run the body; on success
post the final snapshot when the webhook url passes the guard and return the
url; on failure write the error record, post the error snapshot under the
same guard, and re-raise. `init` is the record created at submit time. -/
def process_video (s : Settings) (env : RunEnv) (p : Params) (init : TaskStatus) : RunOutput :=
  match runBody s env p with
  | (tr, .ok url) =>
    { trace := tr
      raised := none
      result_url := some url
      posts := if validWebhookUrl p.webhook_url then [⟨init.applyUpdates tr, 10⟩] else [] }
  | (tr, .error m) =>
    let tr := tr ++ [errUpdate m]
    { trace := tr
      raised := some m
      result_url := none
      posts := if validWebhookUrl p.webhook_url then [⟨init.applyUpdates tr, 10⟩] else [] }

/-- The record a poller sees after the run: the trace folded over the record
that existed at submit time. -/
def finalRecord (init : TaskStatus) (o : RunOutput) : TaskStatus :=
  init.applyUpdates o.trace

/-- The `progress` values written by a run, in write order. -/
def progressSeq (o : RunOutput) : List ℤ :=
  o.trace.filterMap (·.progress)

/-- All external calls of the run succeed and extraction yields at least one
frame (unreadable frame files in the inpaint loop are NOT failures). -/
def envSucceeds (env : RunEnv) : Prop :=
  env.download = .ok ∧ env.probe = .ok ∧ env.extract = .ok ∧ env.frames ≠ [] ∧
    env.detectPhase = .ok ∧ env.render = .ok ∧ env.upload = .ok

instance (env : RunEnv) : Decidable (envSucceeds env) := by
  unfold envSucceeds; infer_instance

/-! ## list_recent (src/app/core/status.py lines 204-233 and 293-307) -/

/-- The summary dict built by both `list_recent` backends. -/
structure TaskSummary where
  task_id : String
  status : String
  progress : ℤ
  updated_at : String
deriving DecidableEq, Repr

/-- Field projection both backends apply to a stored record. -/
def summarize (t : TaskStatus) : TaskSummary :=
  { task_id := t.task_id, status := t.status, progress := t.progress
    updated_at := t.updated_at }

/-- Python string `<`: lexicographic comparison by code point. -/
def charListLt : List Char → List Char → Bool
  | [], [] => false
  | [], _ :: _ => true
  | _ :: _, [] => false
  | a :: as, b :: bs =>
    if a.toNat < b.toNat then true
    else if b.toNat < a.toNat then false
    else charListLt as bs

/-- Python `<` on strings. -/
def strLt (a b : String) : Bool :=
  charListLt a.toList b.toList

/-- Stable insert for a descending-by-key order: the new element (earlier in
the original list) goes before every element with a key not above its own. -/
def insertDesc {α : Type} (key : α → String) (a : α) : List α → List α
  | [] => [a]
  | b :: bs => if strLt (key a) (key b) then b :: insertDesc key a bs else a :: b :: bs

/-- Python `list.sort(key=..., reverse=True)` is a stable descending sort;
all stable sorts agree, so it is modelled by stable insertion sort. -/
def sortDesc {α : Type} (key : α → String) : List α → List α
  | [] => []
  | a :: rest => insertDesc key a (sortDesc key rest)

/-- File backend `list_recent` (lines 298-307): snapshot the in-memory map
values (insertion order), sort by `updated_at` descending, summarise the
first `limit`. -/
def list_recent_file (store : List TaskStatus) (limit : ℕ) : List TaskSummary :=
  ((sortDesc (fun t => t.updated_at) store).take limit).map summarize

/-- Redis backend `_list_from_redis` (lines 204-233): `scan_iter` yields the
matching keys in scan order; only the first `limit * 2` of them are read and
summarised, then sorted by `updated_at` descending and cut to `limit`. -/
def list_recent_redis (scanOrder : List TaskStatus) (limit : ℕ) : List TaskSummary :=
  let tasks := (scanOrder.take (limit * 2)).map summarize
  (sortDesc (fun t => t.updated_at) tasks).take limit

/-! ## Dispatch (src/app/core/queue.py) -/

/-- Which strategy executed a submission. -/
inductive Route where
  | broker
  | localPool
deriving DecidableEq, Repr

/-- `init_celery()`: `None` without touching the broker when redis is not
configured; otherwise construct the Celery app, which the environment says
succeeds (`ctorOk`) or raises. Also reports whether a broker initialisation
was attempted. -/
def init_celery (s : Settings) (ctorOk : Bool) : Option Unit × Bool :=
  if s.is_redis_enabled then
    (if ctorOk then (some (), true) else (none, true))
  else (none, false)

/-- The module-level dispatcher state: the cached `celery_app` and how many
broker initialisation attempts have been made so far. -/
structure QueueState where
  celery_app : Option Unit := none
  attempts : ℕ := 0
deriving DecidableEq, Repr

/-- Module import (queue.py line 116): `celery_app = init_celery()`. -/
def queueModuleStart (s : Settings) (ctorOk : Bool) : QueueState :=
  let r := init_celery s ctorOk
  { celery_app := r.1, attempts := if r.2 then 1 else 0 }

/-- `enqueue_video_processing` (lines 68-85): re-run `init_celery()` whenever
the cached app is `None`, then route to the broker if an app is present and
to the thread-pool fallback otherwise. -/
def enqueue_video_processing (s : Settings) (ctorOk : Bool) (st : QueueState) :
    QueueState × Route :=
  match st.celery_app with
  | some _ => (st, .broker)
  | none =>
    let r := init_celery s ctorOk
    let st' : QueueState :=
      { celery_app := r.1, attempts := st.attempts + (if r.2 then 1 else 0) }
    match r.1 with
    | some _ => (st', .broker)
    | none => (st', .localPool)

/-! ## Task ids (src/app/core/utils.py lines 19-21) -/

/-- `generate_task_id()`: the wall clock `time.time()` (a float, idealised as
an exact rational number of seconds) truncated to the integer second by
`int(...)` (floor, since the clock is positive). -/
def generate_task_id (now : ℚ) : String :=
  "cod5_" ++ toString ⌊now⌋

/-! ## Helper lemmas -/

theorem applyUpdates_append (t : TaskStatus) (l₁ l₂ : List UpdateCall) :
    t.applyUpdates (l₁ ++ l₂) = (t.applyUpdates l₁).applyUpdates l₂ := by
  simp [TaskStatus.applyUpdates, List.foldl_append]

theorem applyUpdates_webhook_status (t : TaskStatus) (l : List UpdateCall) :
    (t.applyUpdates l).webhook_status = t.webhook_status := by
  induction l generalizing t with
  | nil => rfl
  | cons u us ih =>
    show ((t.applyUpdate u).applyUpdates us).webhook_status = t.webhook_status
    rw [ih]
    rfl

theorem applyUpdates_webhook_error (t : TaskStatus) (l : List UpdateCall) :
    (t.applyUpdates l).webhook_error = t.webhook_error := by
  induction l generalizing t with
  | nil => rfl
  | cons u us ih =>
    show ((t.applyUpdate u).applyUpdates us).webhook_error = t.webhook_error
    rw [ih]
    rfl

theorem applyUpdates_spaces_output (t : TaskStatus) (l : List UpdateCall)
    (h : ∀ u ∈ l, u.spaces_output = none) :
    (t.applyUpdates l).spaces_output = t.spaces_output := by
  induction l generalizing t with
  | nil => rfl
  | cons u us ih =>
    have hu := h u (List.mem_cons_self _ _)
    have hrest : ∀ v ∈ us, v.spaces_output = none :=
      fun v hv => h v (List.mem_cons_of_mem _ hv)
    show ((t.applyUpdate u).applyUpdates us).spaces_output = t.spaces_output
    rw [ih _ hrest]
    simp [TaskStatus.applyUpdate, hu]

/-- Painting a list of boxes over a base mask sets a pixel iff some clamped
expanded box covers it, leaving the base value elsewhere. -/
theorem foldl_fillBox (boxes : List Box) (e h w : ℤ) (m : ℤ → ℤ → ℕ) (y x : ℤ) :
    (boxes.foldl (fun acc b => fillBox acc (clampBox b e h w)) m) y x =
      if ∃ b ∈ boxes, inBox (clampBox b e h w) y x then 255 else m y x := by
  induction boxes generalizing m with
  | nil => simp
  | cons b bs ih =>
    simp only [List.foldl_cons, ih]
    by_cases hbs : ∃ c ∈ bs, inBox (clampBox c e h w) y x
    · rw [if_pos hbs, if_pos]
      obtain ⟨c, hc, hcx⟩ := hbs
      exact ⟨c, List.mem_cons_of_mem _ hc, hcx⟩
    · rw [if_neg hbs]
      unfold fillBox
      by_cases hb : inBox (clampBox b e h w) y x
      · rw [if_pos hb, if_pos ⟨b, List.mem_cons_self _ _, hb⟩]
      · rw [if_neg hb, if_neg]
        rintro ⟨c, hc, hcx⟩
        rcases List.mem_cons.mp hc with rfl | hc'
        · exact hb hcx
        · exact hbs ⟨c, hc', hcx⟩

theorem expand_mask_eq (boxes : List Box) (e h w y x : ℤ) :
    expand_mask boxes e h w y x =
      if ∃ b ∈ boxes, inBox (clampBox b e h w) y x then 255 else 0 := by
  simpa [expand_mask] using foldl_fillBox boxes e h w (fun _ _ => 0) y x

/-- Accumulating `acc ++ f i` over a list is `acc ++` the flattened image. -/
theorem foldl_append_bind {α β : Type} (l : List α) (f : α → List β) (acc : List β) :
    l.foldl (fun acc i => acc ++ f i) acc = acc ++ l.flatMap f := by
  induction l generalizing acc with
  | nil => simp
  | cons a as ih => simp [List.foldl_cons, ih]

theorem all_boxes_eq (frames : List FrameData) :
    all_boxes frames =
      (sample_indices frames.length).flatMap (fun i => (frames.getD i {}).boxes) := by
  simpa [all_boxes] using
    foldl_append_bind (sample_indices frames.length)
      (fun i => (frames.getD i {}).boxes) []

/-! ### Inpaint-loop lemmas -/

theorem inpaintGo_fst_mem (l : List FrameData) (n j : ℕ) (u : UpdateCall)
    (hu : u ∈ (inpaintGo n j l).1) :
    ∃ i, ∃ hi : i < l.length,
      (l.get ⟨i, hi⟩).img = true ∧ u = loopUpdate n (j + i + 1) := by
  induction l generalizing j with
  | nil => simp [inpaintGo] at hu
  | cons f rest ih =>
    rw [inpaintGo] at hu
    by_cases hf : f.img
    · simp only [hf, if_true] at hu
      by_cases hcp : (j + 1) % 10 = 0 ∨ j + 1 = n
      · simp only [hcp, if_true, List.mem_cons] at hu
        rcases hu with rfl | hu
        · exact ⟨0, by simp, by simpa using hf, by simp⟩
        · obtain ⟨i, hi, himg, hequ⟩ := ih (j + 1) hu
          exact ⟨i + 1, by simpa using Nat.succ_lt_succ hi,
            by simpa using himg, by rw [hequ]; congr 1; omega⟩
      · simp only [hcp, if_false] at hu
        obtain ⟨i, hi, himg, hequ⟩ := ih (j + 1) hu
        exact ⟨i + 1, by simpa using Nat.succ_lt_succ hi,
          by simpa using himg, by rw [hequ]; congr 1; omega⟩
    · simp only [hf] at hu
      rw [if_neg (by simp [hf])] at hu
      obtain ⟨i, hi, himg, hequ⟩ := ih (j + 1) hu
      exact ⟨i + 1, by simpa using Nat.succ_lt_succ hi,
        by simpa using himg, by rw [hequ]; congr 1; omega⟩

theorem inpaintGo_snd_mem (l : List FrameData) (n j m : ℕ) :
    m ∈ (inpaintGo n j l).2 ↔
      ∃ i, ∃ hi : i < l.length, (l.get ⟨i, hi⟩).img = true ∧ m = j + i + 1 := by
  induction l generalizing j with
  | nil => simp [inpaintGo]
  | cons f rest ih =>
    rw [inpaintGo]
    by_cases hf : f.img
    · constructor
      · intro hm
        have hm' : m ∈ (j + 1) :: (inpaintGo n (j + 1) rest).2 := by
          simp only [hf, if_true] at hm
          exact hm
        rcases List.mem_cons.mp hm' with rfl | hm''
        · exact ⟨0, by simp, by simpa using hf, by simp⟩
        · obtain ⟨i, hi, himg, hequ⟩ := (ih (j + 1)).mp hm''
          exact ⟨i + 1, by simpa using Nat.succ_lt_succ hi,
            by simpa using himg, by omega⟩
      · rintro ⟨i, hi, himg, rfl⟩
        have hgoal : j + i + 1 ∈ (j + 1) :: (inpaintGo n (j + 1) rest).2 := by
          rcases i with _ | i'
          · simp
          · have hi' : i' < rest.length := by simpa using hi
            refine List.mem_cons_of_mem _ ?_
            refine (ih (j + 1)).mpr ⟨i', hi', by simpa using himg, by omega⟩
        simp only [hf, if_true]
        exact hgoal
    · constructor
      · intro hm
        rw [if_neg (by simp [hf])] at hm
        obtain ⟨i, hi, himg, hequ⟩ := (ih (j + 1)).mp hm
        exact ⟨i + 1, by simpa using Nat.succ_lt_succ hi,
          by simpa using himg, by omega⟩
      · rintro ⟨i, hi, himg, rfl⟩
        rw [if_neg (by simp [hf])]
        rcases i with _ | i'
        · rw [List.get] at himg
          simp [hf] at himg
        · have hi' : i' < rest.length := by simpa using hi
          refine (ih (j + 1)).mpr ⟨i', hi', by simpa using himg, by omega⟩

theorem inpaintGo_progress_mem (l : List FrameData) (n j : ℕ) (q : ℤ)
    (hq : q ∈ (inpaintGo n j l).1.filterMap (fun u => u.progress)) :
    ∃ m, j < m ∧ m ≤ j + l.length ∧ q = 20 + (60 * (m : ℤ)) / (n : ℤ) := by
  obtain ⟨u, hu, hup⟩ := List.mem_filterMap.mp hq
  obtain ⟨i, hi, _, rfl⟩ := inpaintGo_fst_mem l n j u hu
  exact ⟨j + i + 1, by omega, by omega, (Option.some.inj hup).symm⟩

theorem inpaintGo_progress_chain (l : List FrameData) (n : ℕ) (hn : 0 < n) (j : ℕ) :
    List.Chain' (· ≤ ·) ((inpaintGo n j l).1.filterMap (fun u => u.progress)) := by
  induction l generalizing j with
  | nil => simp [inpaintGo]
  | cons f rest ih =>
    rw [inpaintGo]
    by_cases hf : f.img
    · by_cases hcp : (j + 1) % 10 = 0 ∨ j + 1 = n
      · simp only [hf, if_true, hcp]
        rw [List.filterMap_cons]
        have hl : (loopUpdate n (j + 1)).progress =
            some (20 + (60 * ((j + 1 : ℕ) : ℤ)) / (n : ℤ)) := rfl
        rw [hl]
        refine List.chain'_cons'.mpr ⟨?_, ih (j + 1)⟩
        intro y hy
        obtain ⟨m, hm1, hm2, rfl⟩ :=
          inpaintGo_progress_mem rest n (j + 1) y (List.mem_of_mem_head? hy)
        have hdiv : (60 * ((j + 1 : ℕ) : ℤ)) / (n : ℤ) ≤ (60 * (m : ℤ)) / (n : ℤ) :=
          Int.ediv_le_ediv (by exact_mod_cast hn) (by omega)
        omega
      · simp only [hf, if_true, hcp, if_false]
        exact ih (j + 1)
    · rw [if_neg (by simp [hf])]
      exact ih (j + 1)

theorem inpaintGo_progress_bounds (l : List FrameData) (n j : ℕ) (hn : 0 < n)
    (hlen : j + l.length ≤ n) (q : ℤ)
    (hq : q ∈ (inpaintGo n j l).1.filterMap (fun u => u.progress)) :
    20 ≤ q ∧ q ≤ 80 := by
  obtain ⟨m, hm1, hm2, rfl⟩ := inpaintGo_progress_mem l n j q hq
  have hnz : (n : ℤ) ≠ 0 := by exact_mod_cast hn.ne.symm
  constructor
  · have h0 : (0 : ℤ) ≤ 60 * (m : ℤ) / (n : ℤ) :=
      Int.ediv_nonneg (by positivity) (by positivity)
    omega
  · have hmn : m ≤ n := le_trans hm2 hlen
    have h1 : (60 : ℤ) * m / n ≤ 60 * n / n :=
      Int.ediv_le_ediv (by exact_mod_cast hn) (by omega)
    have h2 : (60 : ℤ) * n / n = 60 := by
      rw [mul_comm]
      exact Int.mul_ediv_cancel_left 60 hnz
    omega

/-! ### Run shapes -/

/-- The classification of `frames_done` values a run ever writes: nothing,
the reset to 0 at the detecting update, or `i + 1` for a loaded frame `i`. -/
def fdChar (env : RunEnv) (u : UpdateCall) : Prop :=
  u.frames_done = none ∨ u.frames_done = some 0 ∨
    ∃ i, ∃ hi : i < env.frames.length,
      (env.frames.get ⟨i, hi⟩).img = true ∧ u.frames_done = some ((i : ℤ) + 1)

theorem loop_u_prop (env : RunEnv) (u : UpdateCall)
    (hu : u ∈ (inpaintGo env.frames.length 0 env.frames).1) :
    u.spaces_output = none ∧ u.status = none ∧ fdChar env u := by
  obtain ⟨i, hi, himg, rfl⟩ := inpaintGo_fst_mem _ _ _ u hu
  refine ⟨rfl, rfl, Or.inr (Or.inr ⟨i, hi, himg, ?_⟩)⟩
  show some ((0 + i + 1 : ℕ) : ℤ) = some ((i : ℤ) + 1)
  congr 1
  push_cast
  ring

/-- The full update trace of a run in which every stage succeeds. -/
def successTrace (s : Settings) (env : RunEnv) (p : Params) : List UpdateCall :=
  [u_downloading, u_params (resolveEffective s env p), u_extracting,
    u_detecting (env.frames.length : ℤ), u_inpainting]
    ++ (inpaintGo env.frames.length 0 env.frames).1
    ++ [u_rendering, u_uploading, u_completed env.uploadUrl]

theorem runBody_success (s : Settings) (env : RunEnv) (p : Params)
    (h : envSucceeds env) :
    runBody s env p = (successTrace s env p, .ok env.uploadUrl) := by
  obtain ⟨h1, h2, h3, h4, h5, h6, h7⟩ := h
  obtain ⟨f0, rest, hf⟩ := List.exists_cons_of_ne_nil h4
  simp [runBody, successTrace, h1, h2, h3, h5, h6, h7, hf, extract_frames_result,
    List.append_assoc]

theorem process_video_success (s : Settings) (env : RunEnv) (p : Params)
    (init : TaskStatus) (h : envSucceeds env) :
    process_video s env p init =
      { trace := successTrace s env p
        raised := none
        result_url := some env.uploadUrl
        posts := if validWebhookUrl p.webhook_url then
          [⟨init.applyUpdates (successTrace s env p), 10⟩] else [] } := by
  simp [process_video, runBody_success s env p h]

theorem process_video_error (s : Settings) (env : RunEnv) (p : Params)
    (init : TaskStatus) (tr : List UpdateCall) (m : String)
    (hb : runBody s env p = (tr, .error m)) :
    process_video s env p init =
      { trace := tr ++ [errUpdate m]
        raised := some m
        result_url := none
        posts := if validWebhookUrl p.webhook_url then
          [⟨init.applyUpdates (tr ++ [errUpdate m]), 10⟩] else [] } := by
  simp [process_video, hb]

theorem runBody_of_raised (s : Settings) (env : RunEnv) (p : Params)
    (init : TaskStatus) (m : String)
    (h : (process_video s env p init).raised = some m) :
    runBody s env p = ((runBody s env p).1, .error m) := by
  rcases hb : runBody s env p with ⟨tr, r⟩
  cases r with
  | ok url => simp [process_video, hb] at h
  | error m' =>
    rw [process_video_error s env p init tr m' hb] at h
    simp at h
    simp [h]

/-- Every update a failing `try` body wrote before the exception: it never
sets the output location, never writes a completed status, and only writes
the classified `frames_done` values. -/
theorem runBody_error_trace (s : Settings) (env : RunEnv) (p : Params)
    (tr : List UpdateCall) (m : String)
    (hb : runBody s env p = (tr, Except.error m)) :
    ∀ u ∈ tr, u.spaces_output = none ∧ u.status ≠ some "completed" ∧ fdChar env u := by
  unfold runBody at hb
  repeat' split at hb
  all_goals simp only [Prod.mk.injEq, Except.error.injEq, reduceCtorEq,
    and_false, false_and] at hb
  all_goals obtain ⟨htr, hm⟩ := hb
  all_goals subst htr
  all_goals intro u hu
  all_goals simp only [List.mem_append, List.mem_cons, List.not_mem_nil, or_false,
    or_assoc] at hu
  · rcases hu with rfl | rfl <;> exact ⟨rfl, by simp [u_downloading, u_params], Or.inl rfl⟩
  · rcases hu with rfl | rfl | rfl <;>
      exact ⟨rfl, by simp [u_downloading, u_params, u_extracting], Or.inl rfl⟩
  · rcases hu with rfl | rfl | rfl <;>
      exact ⟨rfl, by simp [u_downloading, u_params, u_extracting], Or.inl rfl⟩
  · rcases hu with rfl | rfl | rfl | rfl
    · exact ⟨rfl, by simp [u_downloading], Or.inl rfl⟩
    · exact ⟨rfl, by simp [u_params], Or.inl rfl⟩
    · exact ⟨rfl, by simp [u_extracting], Or.inl rfl⟩
    · exact ⟨rfl, by simp [u_detecting], Or.inr (Or.inl rfl)⟩
  · rcases hu with rfl | rfl | rfl | rfl
    · exact ⟨rfl, by simp [u_downloading], Or.inl rfl⟩
    · exact ⟨rfl, by simp [u_params], Or.inl rfl⟩
    · exact ⟨rfl, by simp [u_extracting], Or.inl rfl⟩
    · exact ⟨rfl, by simp [u_detecting], Or.inr (Or.inl rfl)⟩
  · rcases hu with rfl | rfl | rfl | rfl | rfl | hu | rfl
    · exact ⟨rfl, by simp [u_downloading], Or.inl rfl⟩
    · exact ⟨rfl, by simp [u_params], Or.inl rfl⟩
    · exact ⟨rfl, by simp [u_extracting], Or.inl rfl⟩
    · exact ⟨rfl, by simp [u_detecting], Or.inr (Or.inl rfl)⟩
    · exact ⟨rfl, by simp [u_inpainting], Or.inl rfl⟩
    · obtain ⟨hs, hst, hfd⟩ := loop_u_prop env u hu
      exact ⟨hs, by simp [hst], hfd⟩
    · exact ⟨rfl, by simp [u_rendering], Or.inl rfl⟩
  · rcases hu with rfl | rfl | rfl | rfl | rfl | hu | rfl | rfl
    · exact ⟨rfl, by simp [u_downloading], Or.inl rfl⟩
    · exact ⟨rfl, by simp [u_params], Or.inl rfl⟩
    · exact ⟨rfl, by simp [u_extracting], Or.inl rfl⟩
    · exact ⟨rfl, by simp [u_detecting], Or.inr (Or.inl rfl)⟩
    · exact ⟨rfl, by simp [u_inpainting], Or.inl rfl⟩
    · obtain ⟨hs, hst, hfd⟩ := loop_u_prop env u hu
      exact ⟨hs, by simp [hst], hfd⟩
    · exact ⟨rfl, by simp [u_rendering], Or.inl rfl⟩
    · exact ⟨rfl, by simp [u_uploading], Or.inl rfl⟩

/-- Every update of a fully successful run writes only classified
`frames_done` values. -/
theorem successTrace_fdChar (s : Settings) (env : RunEnv) (p : Params) :
    ∀ u ∈ successTrace s env p, fdChar env u := by
  intro u hu
  simp only [successTrace, List.mem_append, List.mem_cons, List.not_mem_nil, or_false,
    or_assoc] at hu
  rcases hu with rfl | rfl | rfl | rfl | rfl | hu | rfl | rfl | rfl
  · exact Or.inl rfl
  · exact Or.inl rfl
  · exact Or.inl rfl
  · exact Or.inr (Or.inl rfl)
  · exact Or.inl rfl
  · exact (loop_u_prop env u hu).2.2
  · exact Or.inl rfl
  · exact Or.inl rfl
  · exact Or.inl rfl

theorem progressSeq_success (s : Settings) (env : RunEnv) (p : Params)
    (init : TaskStatus) (h : envSucceeds env) :
    progressSeq (process_video s env p init) =
      [5, 10, 15, 20]
        ++ (inpaintGo env.frames.length 0 env.frames).1.filterMap (fun u => u.progress)
        ++ [85, 90, 100] := by
  rw [progressSeq, process_video_success s env p init h]
  simp [successTrace, List.filterMap_append, u_downloading, u_params, u_extracting,
    u_detecting, u_inpainting, u_rendering, u_uploading, u_completed]

theorem finalRecord_success (s : Settings) (env : RunEnv) (p : Params)
    (init : TaskStatus) (h : envSucceeds env) :
    (finalRecord init (process_video s env p init)).status = "completed" ∧
      (finalRecord init (process_video s env p init)).progress = 100 ∧
      (finalRecord init (process_video s env p init)).spaces_output =
        some env.uploadUrl := by
  rw [finalRecord, process_video_success s env p init h]
  have hsplit : successTrace s env p =
      ([u_downloading, u_params (resolveEffective s env p), u_extracting,
        u_detecting (env.frames.length : ℤ), u_inpainting]
        ++ (inpaintGo env.frames.length 0 env.frames).1
        ++ [u_rendering, u_uploading]) ++ [u_completed env.uploadUrl] := by
    simp [successTrace, List.append_assoc]
  show (init.applyUpdates (successTrace s env p)).status = "completed" ∧ _
  rw [hsplit, applyUpdates_append]
  exact ⟨rfl, rfl, rfl⟩

/-! ## Example inputs used by witnesses and counterexamples -/

/-- A record as created at submit time. -/
def init0 : TaskStatus := { task_id := "t" }

/-- A run whose storage download raises. -/
def envDownloadFail : RunEnv := { download := .fail "boom" }

/-- A readable frame with no detections. -/
def fOk : FrameData := {}

/-- A frame file `cv2.imread` cannot read in the inpaint loop. -/
def fBad : FrameData := { img := false }

/-- A fully successful 3-frame run. -/
def envOk3 : RunEnv :=
  { frames := [fOk, fOk, fOk], uploadUrl := "https://cdn/outputs/t_clean.mp4" }

/-- A successful 11-frame run whose last frame file is unreadable. -/
def env11 : RunEnv :=
  { frames := [fOk, fOk, fOk, fOk, fOk, fOk, fOk, fOk, fOk, fOk, fBad]
    uploadUrl := "https://cdn/outputs/t_clean.mp4" }

/-! ## Claim theorems -/

/-- C1 (amended): within one run in which every stage succeeds, the sequence
of progress values written to the status record is monotonically
non-decreasing and ends at exactly 100, written together with
status=completed; within one run in which any stage raises, the final
written progress value is 0 (so a failing run breaks monotonicity, since 5
was written first). -/
theorem C1_progress_corrected (s : Settings) (env : RunEnv) (p : Params)
    (init : TaskStatus) :
    (envSucceeds env →
      List.Chain' (· ≤ ·) (progressSeq (process_video s env p init)) ∧
      (progressSeq (process_video s env p init)).getLast? = some 100 ∧
      (finalRecord init (process_video s env p init)).status = "completed" ∧
      (finalRecord init (process_video s env p init)).progress = 100) ∧
    (∀ m, (process_video s env p init).raised = some m →
      (progressSeq (process_video s env p init)).getLast? = some 0) := by
  constructor
  · intro h
    have hn : 0 < env.frames.length := List.length_pos.mpr h.2.2.2.1
    have hps := progressSeq_success s env p init h
    refine ⟨?_, ?_, (finalRecord_success s env p init h).1,
      (finalRecord_success s env p init h).2.1⟩
    · rw [hps]
      refine List.chain'_append.mpr ⟨List.chain'_append.mpr ⟨?_, ?_, ?_⟩, ?_, ?_⟩
      · norm_num [List.chain'_cons]
      · exact inpaintGo_progress_chain env.frames env.frames.length hn 0
      · intro x hx y hy
        have hx20 : 20 = x := by simpa using hx
        subst hx20
        exact (inpaintGo_progress_bounds env.frames env.frames.length 0 hn (by omega) y
          (List.mem_of_mem_head? hy)).1
      · norm_num [List.chain'_cons]
      · intro x hx y hy
        have hy85 : 85 = y := by simpa using hy
        subst hy85
        rw [List.getLast?_append] at hx
        rcases hL : ((inpaintGo env.frames.length 0 env.frames).1.filterMap
            (fun u => u.progress)).getLast? with _ | q
        · rw [hL] at hx
          have hx20 : 20 = x := by simpa using hx
          subst hx20
          norm_num
        · rw [hL] at hx
          have hxq : q = x := by simpa using hx
          have hq := List.mem_of_mem_getLast? (l := (inpaintGo env.frames.length 0
            env.frames).1.filterMap (fun u => u.progress)) (a := q) (by rw [hL]; rfl)
          have hb80 := (inpaintGo_progress_bounds env.frames env.frames.length 0 hn
            (by omega) q hq).2
          omega
    · rw [hps, List.getLast?_append]
      rfl
  · intro m hm
    have hb := runBody_of_raised s env p init m hm
    rw [progressSeq, process_video_error s env p init _ m hb]
    show (((runBody s env p).1 ++ [errUpdate m]).filterMap (fun u => u.progress)).getLast?
      = some 0
    rw [List.filterMap_append]
    have h0 : [errUpdate m].filterMap (fun u => u.progress) = [0] := rfl
    rw [h0, List.getLast?_concat]

/-- C1 counterexample: in a run whose download stage raises, the written
progress sequence is [5, 0], which is not monotonically non-decreasing; so
the claim's lead clause, quantified over every run, fails. -/
theorem C1_progress_counterexample :
    ¬ List.Chain' (· ≤ ·) (progressSeq (process_video {} envDownloadFail {} init0)) := by
  have h : progressSeq (process_video {} envDownloadFail {} init0) = [5, 0] := by decide
  rw [h]
  simp [List.chain'_cons]

/-- C1 witness: the amended theorem at a concrete fully successful 3-frame
run and at a concrete failing run. -/
theorem C1_progress_witness :
    (List.Chain' (· ≤ ·) (progressSeq (process_video {} envOk3 {} init0)) ∧
      (progressSeq (process_video {} envOk3 {} init0)).getLast? = some 100 ∧
      (finalRecord init0 (process_video {} envOk3 {} init0)).status = "completed" ∧
      (finalRecord init0 (process_video {} envOk3 {} init0)).progress = 100) ∧
    (progressSeq (process_video {} envDownloadFail {} init0)).getLast? = some 0 :=
  ⟨(C1_progress_corrected {} envOk3 {} init0).1 (by decide),
   (C1_progress_corrected {} envDownloadFail {} init0).2 "boom" (by decide)⟩

/-- A run whose media-tool extraction exits nonzero with this stderr text. -/
def envExtractFail : RunEnv := { extract := .toolFail "moov atom not found" }

/-- C2 (confirmed): when any stage of a run raises, the runner writes
status=error, progress=0, error_detail and message derived from the
exception, re-raises to its caller, never populates spaces_output, still
posts the webhook (when the URL passes the guard) carrying the error
snapshot; and a media-tool nonzero exit during extraction yields an
error_detail equal to a fixed text followed by the tool's stderr. -/
theorem C2_error_path_confirmed (s : Settings) (env : RunEnv) (p : Params)
    (init : TaskStatus) (m : String)
    (hm : (process_video s env p init).raised = some m) :
    (process_video s env p init).trace.getLast? = some (errUpdate m) ∧
    (finalRecord init (process_video s env p init)).status = "error" ∧
    (finalRecord init (process_video s env p init)).progress = 0 ∧
    (finalRecord init (process_video s env p init)).error_detail = some m ∧
    (finalRecord init (process_video s env p init)).message =
      "Erro no processamento: " ++ m ∧
    (process_video s env p init).result_url = none ∧
    (∀ u ∈ (process_video s env p init).trace, u.spaces_output = none) ∧
    (finalRecord init (process_video s env p init)).spaces_output =
      init.spaces_output ∧
    (process_video s env p init).posts =
      (if validWebhookUrl p.webhook_url then
        [⟨finalRecord init (process_video s env p init), 10⟩] else []) ∧
    (∀ stderr, env.download = .ok → env.probe = .ok → env.extract = .toolFail stderr →
      m = "Falha ao extrair frames do vídeo: " ++ stderr) := by
  have hb := runBody_of_raised s env p init m hm
  have hpe := process_video_error s env p init _ m hb
  have htr := runBody_error_trace s env p _ m hb
  have hall : ∀ u ∈ (process_video s env p init).trace, u.spaces_output = none := by
    rw [hpe]
    intro u hu
    rcases List.mem_append.mp hu with hu' | hu'
    · exact (htr u hu').1
    · rcases List.mem_cons.mp hu' with rfl | h'
      · rfl
      · simp at h'
  refine ⟨?_, ?_, ?_, ?_, ?_, ?_, hall, ?_, ?_, ?_⟩
  · rw [hpe]
    exact List.getLast?_concat _
  · rw [finalRecord, hpe]
    show (init.applyUpdates ((runBody s env p).1 ++ [errUpdate m])).status = "error"
    rw [applyUpdates_append]
    rfl
  · rw [finalRecord, hpe]
    show (init.applyUpdates ((runBody s env p).1 ++ [errUpdate m])).progress = 0
    rw [applyUpdates_append]
    rfl
  · rw [finalRecord, hpe]
    show (init.applyUpdates ((runBody s env p).1 ++ [errUpdate m])).error_detail = some m
    rw [applyUpdates_append]
    rfl
  · rw [finalRecord, hpe]
    show (init.applyUpdates ((runBody s env p).1 ++ [errUpdate m])).message
      = "Erro no processamento: " ++ m
    rw [applyUpdates_append]
    rfl
  · rw [hpe]
  · rw [finalRecord]
    exact applyUpdates_spaces_output init _ hall
  · rw [hpe, finalRecord]
  · intro stderr h1 h2 h3
    have hcalc : runBody s env p =
        ([u_downloading, u_params (resolveEffective s env p), u_extracting],
          .error ("Falha ao extrair frames do vídeo: " ++ stderr)) := by
      simp [runBody, h1, h2, h3, extract_frames_result]
    rw [hcalc] at hb
    simp only [Prod.mk.injEq, Except.error.injEq] at hb
    exact hb.2.symm

/-- C2 witness: the theorem applied to a run whose extraction subprocess
fails with a concrete stderr text, with no webhook configured. -/
theorem C2_error_path_witness :
    (process_video {} envExtractFail {} init0).raised =
      some ("Falha ao extrair frames do vídeo: " ++ "moov atom not found") ∧
    (finalRecord init0 (process_video {} envExtractFail {} init0)).status = "error" ∧
    (finalRecord init0 (process_video {} envExtractFail {} init0)).progress = 0 ∧
    (finalRecord init0 (process_video {} envExtractFail {} init0)).error_detail =
      some ("Falha ao extrair frames do vídeo: " ++ "moov atom not found") ∧
    (finalRecord init0 (process_video {} envExtractFail {} init0)).spaces_output =
      none := by
  have h := C2_error_path_confirmed {} envExtractFail {} init0
    ("Falha ao extrair frames do vídeo: " ++ "moov atom not found") (by decide)
  exact ⟨by decide, h.2.1, h.2.2.1, h.2.2.2.1, h.2.2.2.2.2.2.2.1⟩

/-- C3 counterexample: the supplied numeric override 0.0 is falsy in the
`value or default` idiom, so `validate_yolo_conf(0.0)` returns the clamped
default instead of the claimed `max(0.05, min(0.8, 0.0)) = 0.05`. -/
theorem C3_resolution_counterexample :
    Settings.validate_yolo_conf {} (some 0) ≠ max (5/100 : ℚ) (min (8/10) 0) := by
  norm_num [Settings.validate_yolo_conf, pyOrQ, max_def, min_def]

/-- C3 (amended): resolution never fails and its output always satisfies the
documented bounds, for absent, negative, zero or oversized inputs alike;
the clamp formula `max(lower, min(upper, value))` holds for every nonzero
supplied float override and for every supplied integer override of
mask_expand and frame_stride, but a supplied 0/0.0 is falsy and takes the
configured default instead. -/
theorem C3_resolution_corrected :
    (∀ (s : Settings) (v : Option ℚ),
      5/100 ≤ s.validate_yolo_conf v ∧ s.validate_yolo_conf v ≤ 8/10) ∧
    (∀ (s : Settings) (v : Option ℚ),
      1/10 ≤ s.validate_yolo_iou v ∧ s.validate_yolo_iou v ≤ 9/10) ∧
    (∀ (s : Settings) (v : Option ℤ),
      1 ≤ s.validate_max_det v ∧ s.validate_max_det v ≤ 50) ∧
    (∀ (s : Settings) (v : Option ℚ),
      0 ≤ s.validate_blend_alpha v ∧ s.validate_blend_alpha v ≤ 1) ∧
    (∀ (s : Settings) (v : Option ℤ), 0 ≤ resolve_mask_expand s v) ∧
    (∀ v : Option ℤ, 1 ≤ resolve_frame_stride {} v) ∧
    (∀ x : ℚ, x ≠ 0 →
      Settings.validate_yolo_conf {} (some x) = max (5/100) (min (8/10) x)) ∧
    (∀ x : ℤ, resolve_mask_expand {} (some x) = max 0 x) ∧
    (∀ x : ℤ, resolve_frame_stride {} (some x) = max 1 x) ∧
    Settings.validate_yolo_conf {} none = 55/100 := by
  refine ⟨?_, ?_, ?_, ?_, ?_, ?_, ?_, ?_, ?_, ?_⟩
  · intro s v
    exact ⟨le_max_left _ _, max_le (by norm_num) (min_le_left _ _)⟩
  · intro s v
    exact ⟨le_max_left _ _, max_le (by norm_num) (min_le_left _ _)⟩
  · intro s v
    exact ⟨le_max_left _ _, max_le (by norm_num) (min_le_left _ _)⟩
  · intro s v
    exact ⟨le_max_left _ _, max_le (by norm_num) (min_le_left _ _)⟩
  · intro s v
    exact le_max_left _ _
  · intro v
    cases v with
    | none => norm_num [resolve_frame_stride]
    | some x => exact le_max_left _ _
  · intro x hx
    simp [Settings.validate_yolo_conf, pyOrQ, hx]
  · intro x
    rfl
  · intro x
    rfl
  · norm_num [Settings.validate_yolo_conf, pyOrQ, max_def, min_def]

/-- C3 witness: the clamp formula at a nonzero negative override, the bounds
at an oversized override, and the stride bound at a negative override. -/
theorem C3_resolution_witness :
    Settings.validate_yolo_conf {} (some (-(1/2))) =
      max (5/100) (min (8/10) (-(1/2))) ∧
    (5/100 ≤ Settings.validate_yolo_conf {} (some 2) ∧
      Settings.validate_yolo_conf {} (some 2) ≤ 8/10) ∧
    1 ≤ resolve_frame_stride {} (some (-3)) :=
  ⟨C3_resolution_corrected.2.2.2.2.2.2.1 (-(1/2)) (by norm_num),
   C3_resolution_corrected.1 {} (some 2),
   C3_resolution_corrected.2.2.2.2.2.1 (some (-3))⟩

/-- C4 (confirmed): detection during the detecting stage runs on exactly the
fixed sample: always index 0, additionally the middle index n/2 when the run
has at least 2 frames, additionally the last index when it has at least 3;
every sampled index is a valid frame index, no index outside that sample is
sampled, and the candidate set is the concatenation of the boxes returned
for the sampled frames in sample order. -/
theorem C4_sampling_confirmed (frames : List FrameData) (h : frames ≠ []) :
    (∀ i ∈ sample_indices frames.length, i < frames.length) ∧
    0 ∈ sample_indices frames.length ∧
    (2 ≤ frames.length → frames.length / 2 ∈ sample_indices frames.length) ∧
    (3 ≤ frames.length → frames.length - 1 ∈ sample_indices frames.length) ∧
    (∀ i ∈ sample_indices frames.length,
      i = 0 ∨ (2 ≤ frames.length ∧ i = frames.length / 2) ∨
        (3 ≤ frames.length ∧ i = frames.length - 1)) ∧
    (sample_indices frames.length).length ≤ 3 ∧
    all_boxes frames =
      (sample_indices frames.length).flatMap (fun i => (frames.getD i {}).boxes) := by
  have hn : 0 < frames.length := List.length_pos.mpr h
  refine ⟨?_, ?_, ?_, ?_, ?_, ?_, all_boxes_eq frames⟩
  · intro i hi
    rw [sample_indices] at hi
    by_cases h2 : 1 < frames.length <;> by_cases h3 : 2 < frames.length <;>
      simp [h2, h3] at hi <;> omega
  · simp [sample_indices]
  · intro h2
    have h2' : 1 < frames.length := by omega
    simp [sample_indices, h2']
  · intro h3
    have h3' : 2 < frames.length := by omega
    simp [sample_indices, h3']
  · intro i hi
    rw [sample_indices] at hi
    by_cases h2 : 1 < frames.length <;> by_cases h3 : 2 < frames.length <;>
      simp [h2, h3] at hi <;> omega
  · by_cases h2 : 1 < frames.length <;> by_cases h3 : 2 < frames.length <;>
      simp [sample_indices, h2, h3]

/-- A concrete 4-frame run for the sampling witness. -/
def framesW : List FrameData :=
  [⟨true, [⟨10, 20, 30, 40⟩]⟩, fOk, fOk, ⟨true, [⟨1, 2, 3, 4⟩]⟩]

/-- C4 witness: the theorem at a concrete 4-frame list, together with the
evaluated sample and candidate set. -/
theorem C4_sampling_witness :
    0 ∈ sample_indices framesW.length ∧
    sample_indices framesW.length = [0, 2, 3] ∧
    all_boxes framesW = [⟨10, 20, 30, 40⟩, ⟨1, 2, 3, 4⟩] :=
  ⟨(C4_sampling_confirmed framesW (by decide)).2.1, by decide, by decide⟩

/-- C5 (confirmed): the run's shared mask sets a pixel to 255 exactly when
the pixel lies inside some candidate box expanded by mask_expand and clamped
to the frame bounds, takes no value other than 255 and 0, and is entirely
zero when no boxes were found in any sampled frame. -/
theorem C5_mask_confirmed (env : RunEnv) (me y x : ℤ) :
    (run_mask env me y x = 255 ↔
      ∃ b ∈ all_boxes env.frames,
        inBox (clampBox b me env.frameH env.frameW) y x) ∧
    (run_mask env me y x = 255 ∨ run_mask env me y x = 0) ∧
    (all_boxes env.frames = [] → run_mask env me y x = 0) := by
  have hform : run_mask env me y x =
      if ∃ b ∈ all_boxes env.frames,
        inBox (clampBox b me env.frameH env.frameW) y x then 255 else 0 := by
    unfold run_mask
    by_cases hb : all_boxes env.frames = []
    · rw [if_neg (fun hne => hne hb)]
      simp [hb]
    · rw [if_pos hb, expand_mask_eq]
  rw [hform]
  refine ⟨?_, ?_, ?_⟩
  · by_cases hex : ∃ b ∈ all_boxes env.frames,
      inBox (clampBox b me env.frameH env.frameW) y x <;> simp [hex]
  · by_cases hex : ∃ b ∈ all_boxes env.frames,
      inBox (clampBox b me env.frameH env.frameW) y x <;> simp [hex]
  · intro hb
    simp [hb]

/-- A one-frame run with one detection, for the mask witness. -/
def envBoxed : RunEnv :=
  { frames := [⟨true, [⟨2, 2, 4, 4⟩]⟩], frameH := 10, frameW := 10 }

/-- A one-frame run with no detections, for the mask witness. -/
def envNoBox : RunEnv := { frames := [fOk], frameH := 10, frameW := 10 }

/-- C5 witness: the theorem at concrete pixels of a run with one detection
expanded by 1, and at a run with no detections. -/
theorem C5_mask_witness :
    run_mask envBoxed 1 3 3 = 255 ∧
    run_mask envNoBox 1 3 3 = 0 := by
  constructor
  · exact (C5_mask_confirmed envBoxed 1 3 3).1.mpr ⟨⟨2, 2, 4, 4⟩, by decide, by decide⟩
  · exact (C5_mask_confirmed envNoBox 1 3 3).2.2 (by decide)

/-- Parameters carrying a well-formed webhook URL. -/
def pHook : Params := { webhook_url := some "https://example.com/hook" }

/-- C6 counterexample: a successful run with a valid webhook URL whose POST
got HTTP 200 still leaves webhook_status and webhook_error unset on the
record — the outcome is only logged, never written back. -/
theorem C6_webhook_counterexample :
    (process_video {} envOk3 pHook init0).posts ≠ [] ∧
    envOk3.webhookOutcome = .ok 200 ∧
    (finalRecord init0 (process_video {} envOk3 pHook init0)).webhook_status = none ∧
    (finalRecord init0 (process_video {} envOk3 pHook init0)).webhook_error = none :=
  ⟨by decide, rfl, by decide, by decide⟩

/-- C6 (amended): the webhook is a no-op when the URL fails the guard
(absent, blank, placeholder, or lacking scheme/netloc); otherwise exactly
one POST is sent whose body is the full status snapshot with a 10-second
timeout and no retries; the POST outcome is never written to webhook_status
or webhook_error, and the run is entirely independent of the webhook
outcome, so status and progress never change because of it. -/
theorem C6_webhook_corrected (s : Settings) (env : RunEnv) (p : Params)
    (init : TaskStatus) :
    (validWebhookUrl p.webhook_url = false →
      (process_video s env p init).posts = []) ∧
    (validWebhookUrl p.webhook_url = true →
      (process_video s env p init).posts =
        [⟨finalRecord init (process_video s env p init), 10⟩]) ∧
    (finalRecord init (process_video s env p init)).webhook_status =
      init.webhook_status ∧
    (finalRecord init (process_video s env p init)).webhook_error =
      init.webhook_error ∧
    (∀ r, process_video s { env with webhookOutcome := r } p init =
      process_video s env p init) := by
  refine ⟨?_, ?_, applyUpdates_webhook_status init _,
    applyUpdates_webhook_error init _, ?_⟩
  · intro hv
    rcases hb : runBody s env p with ⟨tr, r⟩
    cases r with
    | ok url => simp [process_video, hb, hv]
    | error m => simp [process_video, hb, hv]
  · intro hv
    rcases hb : runBody s env p with ⟨tr, r⟩
    cases r with
    | ok url => simp [process_video, hb, hv, finalRecord]
    | error m => simp [process_video, hb, hv, finalRecord]
  · intro r
    cases env
    rfl

/-- C6 witness: no webhook configured gives no POST; the example URL gives
exactly one POST whose body is the final snapshot with a 10-second timeout. -/
theorem C6_webhook_witness :
    (process_video {} envOk3 {} init0).posts = [] ∧
    (process_video {} envOk3 pHook init0).posts =
      [⟨finalRecord init0 (process_video {} envOk3 pHook init0), 10⟩] :=
  ⟨(C6_webhook_corrected {} envOk3 {} init0).1 (by decide),
   (C6_webhook_corrected {} envOk3 pHook init0).2.1 (by decide)⟩

/-! ### Ordering lemmas for the stable sort -/

theorem charListLt_asymm :
    ∀ a b : List Char, charListLt a b = true → charListLt b a = false := by
  intro a
  induction a with
  | nil =>
    intro b h
    cases b with
    | nil => simp [charListLt] at h
    | cons c cs => rfl
  | cons c cs ih =>
    intro b h
    cases b with
    | nil => simp [charListLt] at h
    | cons d ds =>
      rw [charListLt] at h ⊢
      by_cases h1 : c.toNat < d.toNat <;> by_cases h2 : d.toNat < c.toNat
      · omega
      · rw [if_neg h2, if_pos h1]
      · rw [if_neg h1, if_pos h2] at h
        exact absurd h (by simp)
      · rw [if_neg h1, if_neg h2] at h
        rw [if_neg h2, if_neg h1]
        exact ih ds h

theorem charListLt_neg_trans :
    ∀ a b c : List Char, charListLt a b = false → charListLt b c = false →
      charListLt a c = false := by
  intro a
  induction a with
  | nil =>
    intro b c h1 h2
    cases b with
    | nil => exact h2
    | cons y ys => simp [charListLt] at h1
  | cons x xs ih =>
    intro b c h1 h2
    cases b with
    | nil =>
      cases c with
      | nil => rfl
      | cons z zs => simp [charListLt] at h2
    | cons y ys =>
      cases c with
      | nil => rfl
      | cons z zs =>
        rw [charListLt] at h1 h2 ⊢
        by_cases hxy : x.toNat < y.toNat
        · rw [if_pos hxy] at h1
          exact absurd h1 (by simp)
        · by_cases hyz : y.toNat < z.toNat
          · rw [if_pos hyz] at h2
            exact absurd h2 (by simp)
          · rw [if_neg hxy] at h1
            rw [if_neg hyz] at h2
            by_cases hyx : y.toNat < x.toNat
            · rw [if_neg (by omega : ¬ x.toNat < z.toNat),
                if_pos (by omega : z.toNat < x.toNat)]
            · by_cases hzy : z.toNat < y.toNat
              · rw [if_neg (by omega : ¬ x.toNat < z.toNat),
                  if_pos (by omega : z.toNat < x.toNat)]
              · rw [if_neg hyx] at h1
                rw [if_neg hzy] at h2
                rw [if_neg (by omega : ¬ x.toNat < z.toNat),
                  if_neg (by omega : ¬ z.toNat < x.toNat)]
                exact ih ys zs h1 h2

theorem strLt_asymm (a b : String) (h : strLt a b = true) : strLt b a = false :=
  charListLt_asymm _ _ h

theorem strLt_neg_trans (a b c : String) (h1 : strLt a b = false)
    (h2 : strLt b c = false) : strLt a c = false :=
  charListLt_neg_trans _ _ _ h1 h2

theorem insertDesc_perm {α : Type} (key : α → String) (a : α) (l : List α) :
    (insertDesc key a l).Perm (a :: l) := by
  induction l with
  | nil => exact List.Perm.refl _
  | cons b bs ih =>
    rw [insertDesc]
    by_cases hlt : strLt (key a) (key b) = true
    · rw [if_pos hlt]
      exact (ih.cons b).trans (List.Perm.swap a b bs)
    · rw [if_neg hlt]

theorem sortDesc_perm {α : Type} (key : α → String) (l : List α) :
    (sortDesc key l).Perm l := by
  induction l with
  | nil => exact List.Perm.refl _
  | cons a as ih =>
    rw [sortDesc]
    exact (insertDesc_perm key a (sortDesc key as)).trans (ih.cons a)

theorem insertDesc_pairwise {α : Type} (key : α → String) (a : α) (l : List α)
    (hl : List.Pairwise (fun x y => strLt (key x) (key y) = false) l) :
    List.Pairwise (fun x y => strLt (key x) (key y) = false)
      (insertDesc key a l) := by
  induction l with
  | nil => simp [insertDesc]
  | cons b bs ih =>
    rw [insertDesc]
    rcases List.pairwise_cons.mp hl with ⟨hb, hbs⟩
    by_cases hlt : strLt (key a) (key b) = true
    · rw [if_pos hlt]
      refine List.pairwise_cons.mpr ⟨?_, ih hbs⟩
      intro x hx
      have hx' := (insertDesc_perm key a bs).mem_iff.mp hx
      rcases List.mem_cons.mp hx' with rfl | hxbs
      · exact strLt_asymm _ _ hlt
      · exact hb x hxbs
    · rw [if_neg hlt]
      refine List.pairwise_cons.mpr ⟨?_, hl⟩
      intro x hx
      rcases List.mem_cons.mp hx with rfl | hxbs
      · simpa using hlt
      · exact strLt_neg_trans _ _ _ (by simpa using hlt) (hb x hxbs)

theorem sortDesc_pairwise {α : Type} (key : α → String) (l : List α) :
    List.Pairwise (fun x y => strLt (key x) (key y) = false) (sortDesc key l) := by
  induction l with
  | nil => simp [sortDesc]
  | cons a as ih =>
    rw [sortDesc]
    exact insertDesc_pairwise key a _ ih

/-- Three stored records with increasing update stamps. -/
def rec1 : TaskStatus := { task_id := "t1", updated_at := "2024-01-01" }

/-- Second stored record. -/
def rec2 : TaskStatus := { task_id := "t2", updated_at := "2024-01-02" }

/-- Third (most recently updated) stored record. -/
def rec3 : TaskStatus := { task_id := "t3", updated_at := "2024-01-03" }

/-- C7 counterexample: with three stored records and limit 1, the Redis
backend truncates the scan to `limit * 2 = 2` keys before sorting, returns
the summary of the second record, and misses the strictly most recently
updated third record — which the file backend does return. -/
theorem C7_list_recent_counterexample :
    rec3 ∈ [rec1, rec2, rec3] ∧
    list_recent_redis [rec1, rec2, rec3] 1 = [summarize rec2] ∧
    summarize rec3 ∉ list_recent_redis [rec1, rec2, rec3] 1 ∧
    strLt (summarize rec2).updated_at rec3.updated_at = true ∧
    list_recent_file [rec1, rec2, rec3] 1 = [summarize rec3] :=
  ⟨by decide, by decide, by decide, by decide, by decide⟩

/-- C7 (amended): both backends return at most `limit` summaries carrying
task_id, status, progress and updated_at, sorted by updated_at descending;
the file backend returns the `limit` most recently updated records of the
whole store (anything it drops sorts at or below everything returned), but
the Redis backend selects from only the first `limit * 2` keys in scan
order, so records beyond that window can be missed. -/
theorem C7_list_recent_corrected (store : List TaskStatus) (limit : ℕ) :
    (list_recent_file store limit).length ≤ limit ∧
    (list_recent_redis store limit).length ≤ limit ∧
    List.Pairwise (fun u v : TaskSummary => strLt u.updated_at v.updated_at = false)
      (list_recent_file store limit) ∧
    List.Pairwise (fun u v : TaskSummary => strLt u.updated_at v.updated_at = false)
      (list_recent_redis store limit) ∧
    (∀ r ∈ store, summarize r ∉ list_recent_file store limit →
      (list_recent_file store limit).length = limit ∧
      ∀ u ∈ list_recent_file store limit, strLt u.updated_at r.updated_at = false) ∧
    (∀ r ∈ store.take (limit * 2), summarize r ∉ list_recent_redis store limit →
      (list_recent_redis store limit).length = limit ∧
      ∀ u ∈ list_recent_redis store limit,
        strLt u.updated_at r.updated_at = false) ∧
    list_recent_redis store limit = list_recent_redis (store.take (limit * 2)) limit := by
  refine ⟨?_, ?_, ?_, ?_, ?_, ?_, ?_⟩
  · simp only [list_recent_file, List.length_map, List.length_take]
    omega
  · simp only [list_recent_redis, List.length_take]
    omega
  · rw [list_recent_file, List.pairwise_map]
    exact List.Pairwise.sublist (List.take_sublist _ _)
      (sortDesc_pairwise (fun t => t.updated_at) store)
  · rw [list_recent_redis]
    exact List.Pairwise.sublist (List.take_sublist _ _)
      (sortDesc_pairwise (fun t : TaskSummary => t.updated_at) _)
  · intro r hr hnot
    have hrs : r ∈ sortDesc (fun t => t.updated_at) store :=
      (sortDesc_perm (fun t => t.updated_at) store).mem_iff.mpr hr
    have hrd : r ∈ (sortDesc (fun t => t.updated_at) store).drop limit := by
      rw [← List.take_append_drop limit (sortDesc (fun t => t.updated_at) store)] at hrs
      rcases List.mem_append.mp hrs with h' | h'
      · exact absurd (List.mem_map_of_mem summarize h') hnot
      · exact h'
    have hlen : limit < (sortDesc (fun t => t.updated_at) store).length := by
      have hpos := List.length_pos.mpr (List.ne_nil_of_mem hrd)
      rw [List.length_drop] at hpos
      omega
    constructor
    · simp only [list_recent_file, List.length_map, List.length_take]
      omega
    · intro u hu
      obtain ⟨t, ht, rfl⟩ := List.mem_map.mp hu
      have hpw := sortDesc_pairwise (fun t => t.updated_at) store
      rw [← List.take_append_drop limit (sortDesc (fun t => t.updated_at) store)] at hpw
      exact (List.pairwise_append.mp hpw).2.2 t ht r hrd
  · intro r hr hnot
    have hrs : summarize r ∈
        sortDesc (fun t => t.updated_at) ((store.take (limit * 2)).map summarize) :=
      (sortDesc_perm _ _).mem_iff.mpr (List.mem_map_of_mem summarize hr)
    have hrd : summarize r ∈
        (sortDesc (fun t => t.updated_at)
          ((store.take (limit * 2)).map summarize)).drop limit := by
      rw [← List.take_append_drop limit (sortDesc (fun t => t.updated_at)
        ((store.take (limit * 2)).map summarize))] at hrs
      rcases List.mem_append.mp hrs with h' | h'
      · exact absurd h' hnot
      · exact h'
    have hlen : limit < (sortDesc (fun t => t.updated_at)
        ((store.take (limit * 2)).map summarize)).length := by
      have hpos := List.length_pos.mpr (List.ne_nil_of_mem hrd)
      rw [List.length_drop] at hpos
      omega
    constructor
    · simp only [list_recent_redis, List.length_take]
      omega
    · intro u hu
      have hpw := sortDesc_pairwise (fun t : TaskSummary => t.updated_at)
        ((store.take (limit * 2)).map summarize)
      rw [← List.take_append_drop limit (sortDesc (fun t => t.updated_at)
        ((store.take (limit * 2)).map summarize))] at hpw
      exact (List.pairwise_append.mp hpw).2.2 u hu (summarize r) hrd
  · simp [list_recent_redis, List.take_take]

/-- C7 witness: the amended theorem at a concrete 3-record store with limit
2, where the oldest record is the one dropped. -/
theorem C7_list_recent_witness :
    (list_recent_file [rec1, rec2, rec3] 2).length ≤ 2 ∧
    List.Pairwise (fun u v : TaskSummary => strLt u.updated_at v.updated_at = false)
      (list_recent_file [rec1, rec2, rec3] 2) ∧
    ((list_recent_file [rec1, rec2, rec3] 2).length = 2 ∧
      ∀ u ∈ list_recent_file [rec1, rec2, rec3] 2,
        strLt u.updated_at rec1.updated_at = false) :=
  ⟨(C7_list_recent_corrected [rec1, rec2, rec3] 2).1,
   (C7_list_recent_corrected [rec1, rec2, rec3] 2).2.2.1,
   (C7_list_recent_corrected [rec1, rec2, rec3] 2).2.2.2.2.1 rec1 (by decide) (by decide)⟩

/-- A configuration with a redis broker URL. -/
def redisSettings : Settings := { QUEUE_BACKEND := some "redis://redis:6379/0" }

/-- C8 counterexample: after a failed broker initialisation at import, a
later submission attempts broker initialisation again (the attempt counter
grows), and a submission on which the attempt succeeds routes to the broker
— so the fallback is neither permanent nor free of retries. -/
theorem C8_dispatch_counterexample :
    (queueModuleStart redisSettings false).attempts = 1 ∧
    (queueModuleStart redisSettings false).celery_app = none ∧
    (enqueue_video_processing redisSettings false
      (queueModuleStart redisSettings false)).1.attempts = 2 ∧
    (enqueue_video_processing redisSettings true
      (queueModuleStart redisSettings false)).2 = Route.broker :=
  ⟨by decide, by decide, by decide, by decide⟩

/-- C8 (amended): a successfully initialised broker app is cached and reused
for the process lifetime; with redis unconfigured every submission uses the
local pool without touching the broker; while no app is cached, every
submission re-attempts broker initialisation, using the local pool when the
attempt fails and the broker when it succeeds. -/
theorem C8_dispatch_corrected (s : Settings) (ok : Bool) (st : QueueState) :
    (∀ a, st.celery_app = some a →
      enqueue_video_processing s ok st = (st, Route.broker)) ∧
    (s.is_redis_enabled = false → st.celery_app = none →
      enqueue_video_processing s ok st =
        ({ celery_app := none, attempts := st.attempts }, Route.localPool)) ∧
    (s.is_redis_enabled = true → st.celery_app = none → ok = true →
      enqueue_video_processing s ok st =
        ({ celery_app := some (), attempts := st.attempts + 1 }, Route.broker)) ∧
    (s.is_redis_enabled = true → st.celery_app = none → ok = false →
      enqueue_video_processing s ok st =
        ({ celery_app := none, attempts := st.attempts + 1 }, Route.localPool)) := by
  refine ⟨?_, ?_, ?_, ?_⟩
  · intro a ha
    simp [enqueue_video_processing, ha]
  · intro hr hn
    simp [enqueue_video_processing, hn, init_celery, hr]
  · intro hr hn hok
    subst hok
    simp [enqueue_video_processing, hn, init_celery, hr]
  · intro hr hn hok
    subst hok
    simp [enqueue_video_processing, hn, init_celery, hr]

/-- C8 witness: the amended theorem at a cached app, at an unconfigured
broker, and at a failing re-attempt. -/
theorem C8_dispatch_witness :
    enqueue_video_processing redisSettings true
      { celery_app := some (), attempts := 1 } =
      ({ celery_app := some (), attempts := 1 }, Route.broker) ∧
    enqueue_video_processing {} true {} =
      ({ celery_app := none, attempts := 0 }, Route.localPool) ∧
    enqueue_video_processing redisSettings false
      { celery_app := none, attempts := 1 } =
      ({ celery_app := none, attempts := 2 }, Route.localPool) :=
  ⟨(C8_dispatch_corrected redisSettings true _).1 () rfl,
   (C8_dispatch_corrected {} true {}).2.1 (by decide) rfl,
   (C8_dispatch_corrected redisSettings false _).2.2.2 (by decide) rfl rfl⟩

/-- C9 (code bug): `generate_task_id` truncates the clock to whole seconds,
so two distinct submission instants within the same second produce the same
task id, contradicting the documented uniqueness. -/
theorem C9_task_id_bug :
    generate_task_id (20011/2) = generate_task_id (100057/10) ∧
    ((20011 : ℚ)/2 ≠ 100057/10) := by
  constructor
  · unfold generate_task_id
    norm_num
  · norm_num

/-- Inverting a successful `runBody`: the result can only be `ok` when every
stage succeeded, and then the trace is the success trace. -/
theorem runBody_ok_inv (s : Settings) (env : RunEnv) (p : Params)
    (tr : List UpdateCall) (url : String)
    (hb : runBody s env p = (tr, Except.ok url)) :
    envSucceeds env ∧ tr = successTrace s env p ∧ url = env.uploadUrl := by
  rcases hdl : env.download with _ | m
  on_goal 2 => simp [runBody, hdl] at hb
  rcases hpr : env.probe with _ | m
  on_goal 2 => simp [runBody, hdl, hpr] at hb
  rcases hex : env.extract with _ | st | m
  on_goal 2 => simp [runBody, hdl, hpr, hex, extract_frames_result] at hb
  on_goal 2 => simp [runBody, hdl, hpr, hex, extract_frames_result] at hb
  rcases hfr : env.frames with _ | ⟨f0, rest⟩
  on_goal 1 => simp [runBody, hdl, hpr, hex, extract_frames_result, hfr] at hb
  rcases hdp : env.detectPhase with _ | m
  on_goal 2 =>
    simp [runBody, hdl, hpr, hex, extract_frames_result, hfr, hdp] at hb
  rcases hre : env.render with _ | m
  on_goal 2 =>
    simp [runBody, hdl, hpr, hex, extract_frames_result, hfr, hdp, hre] at hb
  rcases hup : env.upload with _ | m
  on_goal 2 =>
    simp [runBody, hdl, hpr, hex, extract_frames_result, hfr, hdp, hre, hup] at hb
  have hs : envSucceeds env := ⟨hdl, hpr, hex, by simp [hfr], hdp, hre, hup⟩
  rw [runBody_success s env p hs] at hb
  simp only [Prod.mk.injEq, Except.ok.injEq] at hb
  exact ⟨hs, hb.1.symm, hb.2.symm⟩

/-- Every update any run ever writes carries only classified `frames_done`
values: nothing, 0, or `i + 1` for a frame `i` that loaded. -/
theorem trace_fdChar (s : Settings) (env : RunEnv) (p : Params) (init : TaskStatus) :
    ∀ u ∈ (process_video s env p init).trace, fdChar env u := by
  rcases hb : runBody s env p with ⟨tr, r⟩
  cases r with
  | ok url =>
    obtain ⟨hs, rfl, rfl⟩ := runBody_ok_inv s env p tr url hb
    rw [process_video_success s env p init hs]
    exact successTrace_fdChar s env p
  | error m =>
    rw [process_video_error s env p init tr m hb]
    intro u hu
    rcases List.mem_append.mp hu with h' | h'
    · exact (runBody_error_trace s env p tr m hb u h').2.2
    · rcases List.mem_cons.mp h' with rfl | h''
      · exact Or.inl rfl
      · simp at h''

/-- C10 (confirmed): a frame file that fails to load during the inpaint loop
is silently skipped: output index `j + 1` is never written (while every
loaded frame's output index is), no update of the run carries
`frames_done = j + 1`, and a run whose stages all succeed still re-raises
nothing and completes. -/
theorem C10_skip_confirmed (s : Settings) (env : RunEnv) (p : Params)
    (init : TaskStatus) (j : ℕ) (hj : j < env.frames.length)
    (hbad : (env.frames.get ⟨j, hj⟩).img = false) :
    (j + 1) ∉ (inpaintGo env.frames.length 0 env.frames).2 ∧
    (∀ i, ∀ hi : i < env.frames.length, (env.frames.get ⟨i, hi⟩).img = true →
      (i + 1) ∈ (inpaintGo env.frames.length 0 env.frames).2) ∧
    (∀ u ∈ (process_video s env p init).trace,
      u.frames_done ≠ some ((j : ℤ) + 1)) ∧
    (envSucceeds env → (process_video s env p init).raised = none ∧
      (finalRecord init (process_video s env p init)).status = "completed") := by
  refine ⟨?_, ?_, ?_, ?_⟩
  · intro hmem
    obtain ⟨i, hi, himg, heq⟩ :=
      (inpaintGo_snd_mem env.frames env.frames.length 0 (j + 1)).mp hmem
    have hij : i = j := by omega
    subst hij
    have htrue : (env.frames.get ⟨i, hj⟩).img = true := himg
    rw [hbad] at htrue
    exact absurd htrue (by simp)
  · intro i hi himg
    exact (inpaintGo_snd_mem env.frames env.frames.length 0 (i + 1)).mpr
      ⟨i, hi, himg, by omega⟩
  · intro u hu hfd
    rcases trace_fdChar s env p init u hu with h0 | h0 | ⟨i, hi, himg, hival⟩
    · rw [h0] at hfd
      simp at hfd
    · rw [h0] at hfd
      simp at hfd
      omega
    · rw [hival] at hfd
      simp at hfd
      have hij : i = j := by omega
      subst hij
      have htrue : (env.frames.get ⟨i, hj⟩).img = true := himg
      rw [hbad] at htrue
      exact absurd htrue (by simp)
  · intro hs
    refine ⟨?_, (finalRecord_success s env p init hs).1⟩
    rw [process_video_success s env p init hs]

/-- C10 witness: the theorem at the 11-frame run whose last frame file is
unreadable: no output index 11, no error, status completed, and the final
record shows frames_done = 10 strictly below frames_total = 11. -/
theorem C10_skip_witness :
    (10 + 1) ∉ (inpaintGo env11.frames.length 0 env11.frames).2 ∧
    (process_video {} env11 {} init0).raised = none ∧
    (finalRecord init0 (process_video {} env11 {} init0)).status = "completed" ∧
    (finalRecord init0 (process_video {} env11 {} init0)).frames_done = some 10 ∧
    (finalRecord init0 (process_video {} env11 {} init0)).frames_total = some 11 := by
  have h := C10_skip_confirmed {} env11 {} init0 10 (by decide) (by decide)
  exact ⟨h.1, (h.2.2.2 (by decide)).1, (h.2.2.2 (by decide)).2, by decide, by decide⟩

end Cod5
